import Mathlib

/-!
Formal model of the errx library (chained errors with stack traces).

The Go sources are shallowly embedded: an `error` interface value is the
inductive `GoErr`; the rendering methods and the constructors `newErr` /
`wrapErr` become pure functions over it.  Stack capture
(`runtime.Callers` + symbol resolution) is runtime-dependent, so `getStack`
is parameterized by the list of frames the runtime resolves at the call
site; everything downstream of that point follows the source text.

A Go panic (nil `*Error` dereference, out-of-bounds string slicing) is
modelled by an `Option` result being `none`.
-/

namespace Errx

/-- A StackFrame (stack.go, final variant): qualified function name,
absolute file path, trimmed file path and line number. -/
structure StackFrame where
  FunctionName : String
  FileName : String
  TrimmedFileName : String
  Line : Int
deriving DecidableEq

/-- StackTrace, final variant: a slice of StackFrame
(`type StackTrace []StackFrame`).  Go's nil slice versus non-nil slice
distinction is modelled by `Option StackTrace` at the use sites. -/
abbrev StackTrace := List StackFrame

/-- Method `(*StackFrame).String()`: the line
`"  at " + FunctionName + "(" + TrimmedFileName + ":" + Line + ")\n"`. -/
def StackFrame.string (f : StackFrame) : String :=
  "  at " ++ f.FunctionName ++ "(" ++ f.TrimmedFileName ++ ":" ++ toString f.Line ++ ")\n"

/-- Method `(StackTrace).String()`: concatenation of the frame strings in order. -/
def stackTraceString (s : StackTrace) : String :=
  String.join (s.map StackFrame.string)

/-- A Go `error` interface value as this library can encounter it:
`nil` is the nil interface; `errx inner message stack` is a non-nil
`*errx.Error` pointing at a struct with those three fields; `nilptr` is a
non-nil interface holding a nil `*errx.Error` pointer (the classic Go
typed-nil value, for which any field access panics); `plain s` is an
opaque external error whose `Error()` method returns `s`. -/
inductive GoErr : Type where
  | nil : GoErr
  | errx (inner : GoErr) (message : String) (stack : Option StackTrace) : GoErr
  | nilptr : GoErr
  | plain (msg : String) : GoErr
deriving DecidableEq

/-- Constant `padding = " "` (error.go). -/
def padding : String := " "

/-- Constant `separator = "  "` (error.go historical variant / part_001). -/
def separator : String := "  "

/-- Function `pad(b *bytes.Buffer, str string)`: append `str` only when the
buffer already holds text. -/
def pad (b str : String) : String :=
  if b = "" then b else b ++ str

/-- Method `(*Error).isZero()`: `Inner == nil && Message == "" && StackTrace == nil`.
Only ever invoked on a valid `*Error` receiver; on other values it is
irrelevant (we return `false`). -/
def GoErr.isZero : GoErr → Bool
  | GoErr.errx i m s => i == GoErr.nil && m == "" && s == none
  | _ => false

/-- Function `strings.Repeat s n`. -/
def goRepeat (s : String) : Nat → String
  | 0 => ""
  | n + 1 => s ++ goRepeat s n

/-- Go string slicing `s[i:]`.  Out of bounds is a Go panic, hence `none`.
All strings sliced in this library are ASCII separator repetitions, for
which Go's byte indices coincide with character indices. -/
def goSliceFrom (s : String) (i : Nat) : Option String :=
  if i ≤ s.length then some (String.mk (s.data.drop i)) else none

/-- Method `(*Error).error(depth, separator, printStack)` from the final error.go
(src/unnamed/part_000), written over the three fields of the receiver.
The buffer `b` is threaded explicitly; `String.replace` is
`strings.Replace(_, _, _, -1)` (the pattern is never empty here);
`none` models a panic: dereferencing a typed-nil inner `*Error`
(`inner.isZero()` on a nil receiver) or an out-of-bounds slice. -/
def errorFields (inner : GoErr) (message : String) (stack : Option StackTrace)
    (depth : Nat) (separator : String) (printStack : Bool) : Option String :=
  let b := if message ≠ "" then pad "" padding ++ message else ""
  let afterInner : Option String :=
    match inner with
    | GoErr.nil => some b
    | GoErr.nilptr => none
    | GoErr.errx i2 m2 s2 =>
        if (GoErr.errx i2 m2 s2).isZero then some b
        else (errorFields i2 m2 s2 (depth + 1) separator printStack).map
          (fun s => pad b separator ++ s)
    | GoErr.plain s => some (pad b separator ++ s)
  match afterInner with
  | none => none
  | some b2 =>
      match stack, printStack with
      | some st, true =>
          if depth > 0 then
            match goSliceFrom (goRepeat separator (depth + 1)) (depth * 2) with
            | none => none
            | some old =>
                some (b2 ++ "\n" ++
                  String.replace (stackTraceString st) old (goRepeat separator (depth + 1)))
          else some (b2 ++ "\n" ++ stackTraceString st)
      | _, _ => some b2

/-- Method `(*Error).Error()` of the final variant: `e.error(0, ": ", false)`.
The receiver must be a valid `*Error`; calling it on a typed-nil pointer
panics (`none`), and it is never reached for other values. -/
def errorOf : GoErr → Option String
  | GoErr.errx i m s => errorFields i m s 0 ": " false
  | _ => none

/-- Rendering through the `%v` / `%s` format verbs without the `-` flag
(final variant): `e.error(0, ": ", true)` — the explicit with-stack mode. -/
def formatVerbose : GoErr → Option String
  | GoErr.errx i m s => errorFields i m s 0 ": " true
  | _ => none

/-- Constant `maxStackDepth = 32`. -/
def maxStackDepth : Nat := 32

/-- Function `getStack()` from stack.go (final variant, src/unnamed/part_003):
`runtime.Callers` fills at most `maxStackDepth` program counters and the
loop appends one frame per resolved counter onto a nil slice, so the
result is the nil slice exactly when no frame was appended.  The
runtime-resolved frames at the call site are the parameter. -/
def getStack (resolved : List StackFrame) : Option StackTrace :=
  let fs := resolved.take maxStackDepth
  if fs.isEmpty then none else some fs

/-- Function `newErr(message)`: message, nil inner, freshly captured trace. -/
def newErr (capture : Option StackTrace) (message : String) : GoErr :=
  GoErr.errx GoErr.nil message capture

/-- Function `wrapErr(err, message)` (final variant, src/unnamed/part_000):
for an `*Error` cause, `copied := *inner` copies the three fields by value
and the new node keeps `StackTrace` nil; for a typed-nil `*Error` cause the
type assertion succeeds and `copied := *inner` dereferences a nil pointer —
a panic (`none`); otherwise (nil interface or opaque error) the cause is
stored by reference and a trace is captured at the call site. -/
def wrapErr (capture : Option StackTrace) (err : GoErr) (message : String) : Option GoErr :=
  match err with
  | GoErr.errx i m s => some (GoErr.errx (GoErr.errx i m s) message none)
  | GoErr.nilptr => none
  | e => some (GoErr.errx e message capture)

/-- Function `New(message)` with the runtime-resolved frames made explicit. -/
def New (resolved : List StackFrame) (message : String) : GoErr :=
  newErr (getStack resolved) message

/-- Function `Wrap(err, message)` with the runtime-resolved frames made explicit. -/
def Wrap (resolved : List StackFrame) (err : GoErr) (message : String) : Option GoErr :=
  wrapErr (getStack resolved) err message

/-- Method `(*Error).message(depth)` from src/unnamed/part_001: the message-only
recursive rendering (`": "` separators, stack ignored). -/
def messageFields (inner : GoErr) (message : String) (stack : Option StackTrace)
    (depth : Nat) : Option String :=
  let b := if message ≠ "" then pad "" " " ++ message else ""
  match inner with
  | GoErr.nil => some b
  | GoErr.nilptr => none
  | GoErr.errx i2 m2 s2 =>
      if (GoErr.errx i2 m2 s2).isZero then some b
      else (messageFields i2 m2 s2 (depth + 1)).map (fun s => pad b ": " ++ s)
  | GoErr.plain s => some (pad b ": " ++ s)

/-- Method `(*Error).printStack(depth)` from src/unnamed/part_001: message chain
glued with `"\n" ++ separator-repetition`, opaque inner glued with
`padding`, and each present stack appended with the depth-proportional
indentation rewrite. -/
def printStackFields (inner : GoErr) (message : String) (stack : Option StackTrace)
    (depth : Nat) : Option String :=
  let b := if message ≠ "" then pad "" padding ++ message else ""
  let afterInner : Option String :=
    match inner with
    | GoErr.nil => some b
    | GoErr.nilptr => none
    | GoErr.errx i2 m2 s2 =>
        let repeatedSep := "\n" ++ goRepeat separator (depth + 1)
        if (GoErr.errx i2 m2 s2).isZero then some b
        else (printStackFields i2 m2 s2 (depth + 1)).map (fun s => pad b repeatedSep ++ s)
    | GoErr.plain s => some (pad b padding ++ s)
  match afterInner with
  | none => none
  | some b2 =>
      match stack with
      | some st =>
          if depth > 0 then
            match goSliceFrom (goRepeat separator (depth + 1)) (depth * 2) with
            | none => none
            | some old =>
                some (b2 ++ "\n" ++
                  String.replace (stackTraceString st) old (goRepeat separator (depth + 1)))
          else some (b2 ++ "\n" ++ stackTraceString st)
      | none => some b2

/-- Function `PrintMessages(err)` (src/unnamed/part_001): empty string for a nil
error, `e.message(0)` for an `*Error` (a typed-nil pointer passes the type
assertion and then panics reading fields: `none`), and `err.Error()`
for any other error. -/
def PrintMessages : GoErr → Option String
  | GoErr.nil => some ""
  | GoErr.errx i m s => messageFields i m s 0
  | GoErr.nilptr => none
  | GoErr.plain s => some s

/-- Function `PrintWithStack(err)` (src/unnamed/part_001): same dispatch with
`e.printStack(0)`. -/
def PrintWithStack : GoErr → Option String
  | GoErr.nil => some ""
  | GoErr.errx i m s => printStackFields i m s 0
  | GoErr.nilptr => none
  | GoErr.plain s => some s

/-- Method `(*Error).error(depth)` from the src/error.go historical variant: no
printStack flag — a present stack is always appended; the message chain is
glued with `"\n" ++ strings.Repeat(separator, depth+1)` and an opaque
inner with `padding`. -/
def errorGoFields (inner : GoErr) (message : String) (stack : Option StackTrace)
    (depth : Nat) : Option String :=
  let b := if message ≠ "" then pad "" padding ++ message else ""
  let afterInner : Option String :=
    match inner with
    | GoErr.nil => some b
    | GoErr.nilptr => none
    | GoErr.errx i2 m2 s2 =>
        let sepLocal := "\n" ++ goRepeat separator (depth + 1)
        if (GoErr.errx i2 m2 s2).isZero then some b
        else (errorGoFields i2 m2 s2 (depth + 1)).map (fun s => pad b sepLocal ++ s)
    | GoErr.plain s => some (pad b padding ++ s)
  match afterInner with
  | none => none
  | some b2 =>
      match stack with
      | some st =>
          if depth > 0 then
            match goSliceFrom (goRepeat separator (depth + 1)) (depth * 2) with
            | none => none
            | some old =>
                some (b2 ++ "\n" ++
                  String.replace (stackTraceString st) old (goRepeat separator (depth + 1)))
          else some (b2 ++ "\n" ++ stackTraceString st)
      | none => some b2

/-- Method `(*Error).Error()` of the src/error.go historical variant: `e.error(0)`. -/
def errorGoOf : GoErr → Option String
  | GoErr.errx i m s => errorGoFields i m s 0
  | _ => none

/-- Skip levels never drop below this floor:
`const minCallerSkipLevel = 4` (stack.go, final variant). -/
def minCallerSkipLevel : Int := 4

/-- Function `AdjustCallerSkipLevel(amt)` (stack.go, final variant) as a state
transformer on the stored `callerSkipLevel`: add `amt`, clamping at
`minCallerSkipLevel` from below. -/
def adjustCallerSkipLevel (callerSkipLevel amt : Int) : Int :=
  let newCallerSkipLevel := callerSkipLevel + amt
  if newCallerSkipLevel ≥ minCallerSkipLevel then newCallerSkipLevel else minCallerSkipLevel

/-- The stored skip level after a sequence of `AdjustCallerSkipLevel`
calls, starting from the initial value
`var callerSkipLevel = minCallerSkipLevel`. -/
def skipLevelAfter (amts : List Int) : Int :=
  amts.foldl adjustCallerSkipLevel minCallerSkipLevel

/-- No value reachable through the inner chain is a typed-nil `*Error`
(those are the only values on which the renderers panic). -/
def wellFormed : GoErr → Bool
  | GoErr.nilptr => false
  | GoErr.errx i _ _ => wellFormed i
  | _ => true

/-- How one rendered piece is glued in front of the rest: nothing if no
text precedes, otherwise a `": "` link (this is `pad b ": " ++ s`). -/
def glue (a b : String) : String :=
  if a = "" then b else a ++ ": " ++ b

/-- Right-nested gluing of the rendered pieces of a chain. -/
def joinMsgs : List String → String
  | [] => ""
  | [p] => p
  | p :: q :: ps => glue p (joinMsgs (q :: ps))

/-- The message pieces a node (given by its `inner` and `message` fields)
contributes to the message-only rendering: its own message, then the
pieces of the inner chain, stopping at a zero inner node, at the string of
an opaque error, or at the end of the chain. -/
def msgPieces : GoErr → String → List String
  | GoErr.nil, m => [m]
  | GoErr.nilptr, m => [m]
  | GoErr.errx i2 m2 s2, m =>
      if (GoErr.errx i2 m2 s2).isZero then [m] else m :: msgPieces i2 m2
  | GoErr.plain s, m => [m, s]

/-- Every message down the chain (the node's own, those of the inner
nodes, the string of a terminating opaque error) is empty. -/
def allMsgsEmpty : GoErr → String → Bool
  | GoErr.nil, m => m == ""
  | GoErr.nilptr, m => m == ""
  | GoErr.errx i2 m2 _, m => m == "" && allMsgsEmpty i2 m2
  | GoErr.plain s, m => m == "" && s == ""

/-- Claim C9's hypothesis relation: the two values agree on their message
and on the shape/content of their inner chains, while the `stack` fields
may differ arbitrarily at every node. -/
def sameMsgInner : GoErr → GoErr → Bool
  | GoErr.nil, GoErr.nil => true
  | GoErr.nilptr, GoErr.nilptr => true
  | GoErr.plain a, GoErr.plain b => a == b
  | GoErr.errx i1 m1 _, GoErr.errx i2 m2 _ => m1 == m2 && sameMsgInner i1 i2
  | _, _ => false

/-- Strengthened relation: additionally the two sides agree, node by node,
on whether the node is zero (the one way the `stack` field can influence
message-only rendering). -/
def sameMsgInnerIso : GoErr → GoErr → Bool
  | GoErr.nil, GoErr.nil => true
  | GoErr.nilptr, GoErr.nilptr => true
  | GoErr.plain a, GoErr.plain b => a == b
  | GoErr.errx i1 m1 s1, GoErr.errx i2 m2 s2 =>
      m1 == m2
        && ((GoErr.errx i1 m1 s1).isZero == (GoErr.errx i2 m2 s2).isZero)
        && sameMsgInnerIso i1 i2
  | _, _ => false

/-- Constant `sep = "/"`.  `strings.Count` and `strings.LastIndex` with the
one-character needle `"/"` count and locate this character; the embedding
works on characters, which agrees with Go's byte indices because every
index produced is the position of an ASCII `'/'`. -/
def sepChar : Char := '/'

/-- Function `strings.Count(s, sep)` for the one-character separator. -/
def strCount : List Char → Nat
  | [] => 0
  | c :: cs => (if c = sepChar then 1 else 0) + strCount cs

/-- Function `strings.LastIndex(s, sep)`: index of the last `'/'`, with `none`
standing for Go's `-1`. -/
def lastIdx : List Char → Option Nat
  | [] => none
  | c :: cs =>
      match lastIdx cs with
      | some j => some (j + 1)
      | none => if c = sepChar then some 0 else none

/-- The loop of `trimGOPATH`: `i = strings.LastIndex(file[:i], sep)`
iterated `goal` times; `none` is Go's `-sepLen` sentinel set when the
separators run out (the loop then breaks). -/
def trimLoop (file : List Char) : Nat → Nat → Option Nat
  | i, 0 => some i
  | i, n + 1 =>
      match lastIdx (file.take i) with
      | none => none
      | some j => trimLoop file j n

/-- Function `trimGOPATH(name, file)` (stack.go): starting from `i = len(file)`,
step back through `strings.Count(name, sep) + 2` separators from the end
and slice `file[i+sepLen:]`; when the sentinel was set the slice is
`file[0:]`, i.e. the path unmodified. -/
def trimGOPATH (name file : List Char) : List Char :=
  let goal := strCount name + 2
  match trimLoop file file.length goal with
  | none => file.drop 0
  | some i => file.drop (i + 1)

/-- Ascending list of the indices of `'/'` in a path (specification-side
view used to state what the trimming computes). -/
def sepIdxs : List Char → List Nat
  | [] => []
  | c :: cs => (if c = sepChar then [0] else []) ++ (sepIdxs cs).map (· + 1)

/-- A Go `error` value as stored in a field, for the heap-level view used
to reason about `wrapErr`'s value copy (claim C5): a pointer to an
`errx.Error` struct — an address in the heap below — or an opaque external
error. -/
inductive HVal : Type where
  | ptr (addr : Nat) : HVal
  | plain (msg : String) : HVal
deriving DecidableEq

/-- An `errx.Error` struct in memory: its three fields. -/
structure HObj where
  inner : Option HVal
  message : String
  stack : Option StackTrace
deriving DecidableEq

/-- The heap: addresses are list indices, allocation appends on the
right, mutation of an object's fields is `List.set` at its address. -/
abbrev Heap := List HObj

/-- Method `(*Error).isZero()` read at heap level. -/
def isZeroH (o : HObj) : Bool :=
  o.inner == none && o.message == "" && o.stack == none

/-- Whether an object's inner pointer (if any) stays below address `n`. -/
def objPtrLt (n : Nat) (o : HObj) : Bool :=
  match o.inner with
  | some (HVal.ptr k) => k < n
  | _ => true

/-- Heap well-formedness: no dangling inner pointers. -/
def heapWFb (h : Heap) : Bool := h.all (objPtrLt h.length)

/-- The message-only rendering `(*Error).error(depth, ": ", false)` /
`(*Error).message` read at heap level: every pointer dereference —
including the one hidden in `inner.isZero()` — goes through the heap.
`fuel` bounds the recursion (Go's recursion is bounded by the chain
length, which is finite for every chain the constructors build); `none`
stands for exhausted fuel or a dangling pointer, neither of which occurs
on well-formed heaps with enough fuel. -/
def renderMsgH (h : Heap) : Nat → Nat → Option String
  | 0, _ => none
  | fuel + 1, addr =>
      match h[addr]? with
      | none => none
      | some o =>
          let b := if o.message ≠ "" then pad "" padding ++ o.message else ""
          match o.inner with
          | none => some b
          | some (HVal.plain s) => some (pad b ": " ++ s)
          | some (HVal.ptr k) =>
              match h[k]? with
              | none => none
              | some ok =>
                  if isZeroH ok then some b
                  else (renderMsgH h fuel k).map (fun s => pad b ": " ++ s)

/-- Function `wrapErr` at heap level: `e := &Error{Message: message}` allocates the
wrapper, and for an `*Error` cause `copied := *inner` allocates a shallow
copy of the pointed-to struct — the copy's own `inner` and `stack`
references are shared, not deep-cloned — and sets `e.Inner = &copied`
with no stack capture; any other cause is stored as-is together with the
trace captured at the call site.  The result is the extended heap and the
wrapper's address (`none` models the panic on a dangling pointer). -/
def wrapErrH (h : Heap) (err : Option HVal) (message : String)
    (capture : Option StackTrace) : Option (Heap × Nat) :=
  match err with
  | some (HVal.ptr i) =>
      match h[i]? with
      | none => none
      | some o =>
          some (h ++ [⟨some (HVal.ptr (h.length + 1)), message, none⟩, o], h.length)
  | e => some (h ++ [⟨e, message, capture⟩], h.length)

/-- Address `b` is reachable from address `a` by following `inner`
pointers (reflexively): exactly the addresses the message renderer can
dereference starting from `a`. -/
inductive Derefs (h : Heap) : Nat → Nat → Prop where
  | refl (a : Nat) : Derefs h a a
  | step (a k b : Nat) (o : HObj) : h[a]? = some o → o.inner = some (HVal.ptr k) →
      Derefs h k b → Derefs h a b

/-- A sample resolved frame, used by concrete witnesses. -/
def sampleFrame : StackFrame :=
  ⟨"main.main", "/home/user/src/examples/main.go", "examples/main.go", 13⟩

/-! ### Helper lemmas about the message-only rendering -/

theorem pad_glue (m x : String) : pad m ": " ++ x = glue m x := by
  by_cases h : m = "" <;> simp [pad, glue, h]

theorem msg_buffer (m : String) : (if m ≠ "" then pad "" padding ++ m else "") = m := by
  by_cases h : m = "" <;> simp [pad, h]

theorem msg_buffer_flip (m : String) : (if m = "" then "" else pad "" padding ++ m) = m := by
  by_cases h : m = "" <;> simp [pad, h]

theorem msgPieces_ne_nil (i : GoErr) (m : String) : msgPieces i m ≠ [] := by
  cases i <;> simp [msgPieces] <;> split <;> simp

theorem wellFormed_errx (i : GoErr) (m : String) (s : Option StackTrace) :
    wellFormed (GoErr.errx i m s) = wellFormed i := rfl

/-- The message-only mode of `(*Error).error` (printStack = false) renders a
well-formed node as the glued join of its message pieces, at any depth. -/
theorem errorFields_join (inner : GoErr) :
    ∀ (m : String) (s : Option StackTrace) (d : Nat), wellFormed inner = true →
    errorFields inner m s d ": " false = some (joinMsgs (msgPieces inner m)) := by
  induction inner with
  | nil =>
      intro m s d _
      cases s <;> simp [errorFields, msgPieces, joinMsgs, msg_buffer, msg_buffer_flip]
  | nilptr =>
      intro m s d h
      simp [wellFormed] at h
  | plain str =>
      intro m s d _
      cases s <;> simp [errorFields, msgPieces, joinMsgs, msg_buffer, msg_buffer_flip, pad_glue]
  | errx i2 m2 s2 ih =>
      intro m s d h
      have hwf : wellFormed i2 = true := h
      obtain ⟨q, ps, hqs⟩ : ∃ q ps, msgPieces i2 m2 = q :: ps := by
        cases hcc : msgPieces i2 m2 with
        | nil => exact absurd hcc (msgPieces_ne_nil _ _)
        | cons q ps => exact ⟨q, ps, rfl⟩
      by_cases hz : (GoErr.errx i2 m2 s2).isZero
      · cases s <;> simp [errorFields, msgPieces, hz, msg_buffer, msg_buffer_flip, joinMsgs]
      · cases s <;>
          simp [errorFields, msgPieces, hz, msg_buffer, msg_buffer_flip,
            ih m2 s2 (d + 1) hwf, pad_glue, hqs, joinMsgs]

theorem glue_empty_left (x : String) : glue "" x = x := rfl

theorem joinMsgs_all_empty : ∀ l : List String, (∀ p ∈ l, p = "") → joinMsgs l = "" := by
  intro l
  induction l with
  | nil => intro _; rfl
  | cons p ps ih =>
      intro h
      cases ps with
      | nil => simpa [joinMsgs] using h p (by simp)
      | cons q qs =>
          have hp : p = "" := h p (by simp)
          have : joinMsgs (q :: qs) = "" := ih (fun x hx => h x (by simp [hx]))
          simp [joinMsgs, hp, glue_empty_left, this]

theorem msgPieces_all_empty (i : GoErr) :
    ∀ m, allMsgsEmpty i m = true → ∀ p ∈ msgPieces i m, p = "" := by
  induction i with
  | nil =>
      intro m h p hp
      simp [allMsgsEmpty] at h
      simp [msgPieces] at hp
      simp [hp, h]
  | nilptr =>
      intro m h p hp
      simp [allMsgsEmpty] at h
      simp [msgPieces] at hp
      simp [hp, h]
  | plain str => intro m h p hp
                 simp [allMsgsEmpty] at h
                 simp [msgPieces] at hp
                 rcases hp with hp | hp <;> simp [hp, h.1, h.2]
  | errx i2 m2 s2 ih =>
      intro m h p hp
      simp [allMsgsEmpty] at h
      by_cases hz : (GoErr.errx i2 m2 s2).isZero
      · simp [msgPieces, hz] at hp; simp [hp, h.1]
      · simp [msgPieces, hz] at hp
        rcases hp with hp | hp
        · simp [hp, h.1]
        · exact ih m2 h.2 p hp

/-! ### Lemmas relating the two sides of claim C9 -/

theorem sameMsgInnerIso_wf : ∀ e1 e2 : GoErr, sameMsgInnerIso e1 e2 = true →
    wellFormed e1 = wellFormed e2 := by
  intro e1
  induction e1 with
  | nil =>
      intro e2 h
      cases e2 with
      | nil => rfl
      | errx i m s => simp [sameMsgInnerIso] at h
      | nilptr => simp [sameMsgInnerIso] at h
      | plain b => simp [sameMsgInnerIso] at h
  | nilptr =>
      intro e2 h
      cases e2 with
      | nilptr => rfl
      | nil => simp [sameMsgInnerIso] at h
      | errx i m s => simp [sameMsgInnerIso] at h
      | plain b => simp [sameMsgInnerIso] at h
  | plain a =>
      intro e2 h
      cases e2 with
      | plain b => rfl
      | nil => simp [sameMsgInnerIso] at h
      | errx i m s => simp [sameMsgInnerIso] at h
      | nilptr => simp [sameMsgInnerIso] at h
  | errx i1 m1 s1 ih =>
      intro e2 h
      cases e2 with
      | errx i2 m2 s2 =>
          simp [sameMsgInnerIso] at h
          exact ih i2 h.2
      | nil => simp [sameMsgInnerIso] at h
      | nilptr => simp [sameMsgInnerIso] at h
      | plain b => simp [sameMsgInnerIso] at h

theorem msgPieces_congr : ∀ i1 i2 : GoErr, sameMsgInnerIso i1 i2 = true →
    ∀ m, msgPieces i1 m = msgPieces i2 m := by
  intro i1
  induction i1 with
  | nil =>
      intro i2 h m
      cases i2 with
      | nil => rfl
      | errx i m2 s => simp [sameMsgInnerIso] at h
      | nilptr => simp [sameMsgInnerIso] at h
      | plain b => simp [sameMsgInnerIso] at h
  | nilptr =>
      intro i2 h m
      cases i2 with
      | nilptr => rfl
      | nil => simp [sameMsgInnerIso] at h
      | errx i m2 s => simp [sameMsgInnerIso] at h
      | plain b => simp [sameMsgInnerIso] at h
  | plain a =>
      intro i2 h m
      cases i2 with
      | plain b => simp [sameMsgInnerIso] at h; rw [msgPieces, msgPieces, h]
      | nil => simp [sameMsgInnerIso] at h
      | errx i m2 s => simp [sameMsgInnerIso] at h
      | nilptr => simp [sameMsgInnerIso] at h
  | errx i1' m1 s1 ih =>
      intro i2 h m
      cases i2 with
      | errx i2' m2 s2 =>
          simp [sameMsgInnerIso] at h
          obtain ⟨⟨hm, hziso⟩, hrec⟩ := h
          subst hm
          by_cases hz : (GoErr.errx i1' m1 s1).isZero
          · have hz2 : (GoErr.errx i2' m1 s2).isZero = true := by rw [← hziso]; exact hz
            simp [msgPieces, hz, hz2]
          · have hz2 : (GoErr.errx i2' m1 s2).isZero = false := by
              rw [← hziso]; simpa using hz
            simp [msgPieces, hz, hz2, ih i2' hrec m1]
      | nil => simp [sameMsgInnerIso] at h
      | nilptr => simp [sameMsgInnerIso] at h
      | plain b => simp [sameMsgInnerIso] at h

/-! ### Lemma for claim C7 -/

theorem skipLevel_lb : ∀ (l : List Int) (a : Int),
    minCallerSkipLevel ≤ a → minCallerSkipLevel ≤ l.foldl adjustCallerSkipLevel a := by
  intro l
  induction l with
  | nil => intro a h; simpa using h
  | cons x xs ih =>
      intro a h
      simp only [List.foldl_cons]
      apply ih
      simp only [adjustCallerSkipLevel]
      split <;> omega

/-! ### Claim theorems -/

/-- Claim C1 (amended).  For all non-empty messages m1, m2 and any captured
traces, the message-only rendering of `Wrap(New(m2), m1)` is
`m1 ++ ": " ++ m2`.  In general, the message-only rendering of a
well-formed node is the glued join of the chain's message pieces: descent
stops at the first zero inner node (which contributes nothing, not even a
separator), and a `": "` link is emitted before each descent into a
non-zero inner node exactly when text precedes — so a non-zero node whose
message is empty still induces a trailing separator (see the
counterexample), which is the one departure from the claim as stated. -/
theorem claim1 :
    (∀ (m1 m2 : String) (c1 c2 : Option StackTrace), m1 ≠ "" → m2 ≠ "" →
      (wrapErr c2 (newErr c1 m2) m1).bind errorOf = some (m1 ++ ": " ++ m2))
    ∧ ∀ (i : GoErr) (m : String) (s : Option StackTrace) (d : Nat),
      wellFormed i = true →
      errorFields i m s d ": " false = some (joinMsgs (msgPieces i m)) := by
  constructor
  · intro m1 m2 c1 c2 h1 h2
    have hz : (GoErr.errx GoErr.nil m2 c1).isZero = false := by
      simp [GoErr.isZero, h2]
    have hj := errorFields_join (GoErr.errx GoErr.nil m2 c1) m1 none 0 rfl
    simp [msgPieces, hz, joinMsgs, glue, h1] at hj
    simpa [wrapErr, newErr, errorOf] using hj
  · exact fun i m s d h => errorFields_join i m s d h

/-- Claim C1 counterexample.  For the chain built by
`Wrap(Wrap(<opaque error with empty text>, ""), "a")` the message-only
rendering is `"a: "`, not the `"a"` that "concatenate each non-empty
node's message with separator ': '" predicts: the middle node has an empty
message but is not zero, so the renderer still descends into it and emits
a separator. -/
theorem claim1_counterexample :
    (wrapErr (getStack [sampleFrame]) (GoErr.plain "") "").bind
      (fun w => (wrapErr none w "a").bind errorOf) = some "a: "
    ∧ "a: " ≠ "a" := by
  exact ⟨by decide, by decide⟩

/-- Concrete instance of claim C1's theorem. -/
theorem claim1_witness :
    (wrapErr (some [sampleFrame]) (newErr (some [sampleFrame]) "inner") "outer").bind errorOf
      = some ("outer" ++ ": " ++ "inner")
    ∧ errorFields (GoErr.plain "io") "ctx" none 0 ": " false
      = some (joinMsgs (msgPieces (GoErr.plain "io") "ctx")) :=
  ⟨claim1.1 "outer" "inner" (some [sampleFrame]) (some [sampleFrame]) (by decide) (by decide),
   claim1.2 (GoErr.plain "io") "ctx" none 0 (by decide)⟩

/-- Claim C2.  Wrapping an `*Error` cause stores the value copy and no new
stack trace (`StackTrace` stays nil), while wrapping an opaque non-chain
error stores the cause by reference together with the trace captured at
the `Wrap` call site — which is non-null whenever the runtime resolves at
least one frame there. -/
theorem claim2 : ∀ (frames : List StackFrame) (i : GoErr) (m msg op : String)
    (s : Option StackTrace),
    wrapErr (getStack frames) (GoErr.errx i m s) msg
      = some (GoErr.errx (GoErr.errx i m s) msg none)
    ∧ wrapErr (getStack frames) (GoErr.plain op) msg
      = some (GoErr.errx (GoErr.plain op) msg (getStack frames))
    ∧ (frames ≠ [] → (getStack frames).isSome = true) := by
  intro frames i m msg op s
  refine ⟨rfl, rfl, fun h => ?_⟩
  simp [getStack, maxStackDepth, List.isEmpty_iff, List.take_eq_nil_iff, h]

/-- Concrete instance of claim C2's theorem. -/
theorem claim2_witness :
    wrapErr (getStack [sampleFrame]) (GoErr.errx GoErr.nil "inner" (some [sampleFrame])) "outer"
      = some (GoErr.errx (GoErr.errx GoErr.nil "inner" (some [sampleFrame])) "outer" none)
    ∧ wrapErr (getStack [sampleFrame]) (GoErr.plain "io") "outer"
      = some (GoErr.errx (GoErr.plain "io") "outer" (getStack [sampleFrame]))
    ∧ (getStack [sampleFrame]).isSome = true :=
  ⟨(claim2 [sampleFrame] GoErr.nil "inner" "outer" "io" (some [sampleFrame])).1,
   (claim2 [sampleFrame] GoErr.nil "inner" "outer" "io" (some [sampleFrame])).2.1,
   (claim2 [sampleFrame] GoErr.nil "inner" "outer" "io" (some [sampleFrame])).2.2
     (by decide)⟩

/-- Claim C6 (amended).  `New("")` and `Wrap(New(""), "")` render to the
empty string in message-only mode, and a chain all of whose messages are
empty renders to the empty string; a zero inner node contributes neither
text nor a separator.  However a non-zero node with an empty message can
still induce a `": "` separator after non-empty preceding text (see the
counterexample), which is the one departure from the claim as stated. -/
theorem claim6 :
    (∀ c : Option StackTrace, errorOf (newErr c "") = some "")
    ∧ (∀ c1 c2 : Option StackTrace, (wrapErr c2 (newErr c1 "") "").bind errorOf = some "")
    ∧ ∀ (i : GoErr) (m : String) (s : Option StackTrace) (d : Nat),
      wellFormed i = true → allMsgsEmpty i m = true →
      errorFields i m s d ": " false = some "" := by
  have key : ∀ (i : GoErr) (m : String) (s : Option StackTrace) (d : Nat),
      wellFormed i = true → allMsgsEmpty i m = true →
      errorFields i m s d ": " false = some "" := by
    intro i m s d hw hm
    rw [errorFields_join i m s d hw, joinMsgs_all_empty _ (msgPieces_all_empty i m hm)]
  refine ⟨?_, ?_, key⟩
  · intro c
    simpa [errorOf, newErr] using key GoErr.nil "" c 0 rfl rfl
  · intro c1 c2
    simpa [wrapErr, newErr, errorOf] using
      key (GoErr.errx GoErr.nil "" c1) "" none 0 rfl rfl

/-- Claim C6 counterexample.  `Wrap(New(""), "b")` renders (message-only)
to `"b: "`, not `"b"`: the copied `New("")` node carries a stack trace, so
it is not zero, and although its message is empty it makes the outer node
emit a `": "` separator. -/
theorem claim6_counterexample :
    (wrapErr none (newErr (some [sampleFrame]) "") "b").bind errorOf = some "b: "
    ∧ "b: " ≠ "b" := by
  exact ⟨by decide, by decide⟩

/-- Concrete instance of claim C6's theorem. -/
theorem claim6_witness :
    errorOf (newErr (some [sampleFrame]) "") = some ""
    ∧ (wrapErr none (newErr none "") "").bind errorOf = some ""
    ∧ errorFields (GoErr.plain "") "" none 0 ": " false = some "" :=
  ⟨claim6.1 (some [sampleFrame]), claim6.2.1 none none,
   claim6.2.2 (GoErr.plain "") "" none 0 (by decide) (by decide)⟩

/-- Claim C7.  Starting from the initial value `minCallerSkipLevel`, any
sequence of `AdjustCallerSkipLevel` calls — with arbitrary, possibly
negative deltas — leaves the stored skip level at or above
`minCallerSkipLevel`. -/
theorem claim7 : ∀ amts : List Int, minCallerSkipLevel ≤ skipLevelAfter amts :=
  fun amts => skipLevel_lb amts minCallerSkipLevel le_rfl

/-- Claim C9 (amended).  If two error values agree on their messages and
inner-chain structure and additionally agree, node by node, on whether
each node is zero, then their message-only renderings coincide; the
`stack` fields are otherwise irrelevant.  (Without the zero-ness
agreement the claim fails — see the counterexample: the stack field feeds
the `isZero` test.) -/
theorem claim9 : ∀ e1 e2 : GoErr, wellFormed e1 = true → sameMsgInnerIso e1 e2 = true →
    errorOf e1 = errorOf e2 := by
  intro e1 e2 hw h
  cases e1 with
  | errx i1 m1 s1 =>
      cases e2 with
      | errx i2 m2 s2 =>
          simp only [sameMsgInnerIso, Bool.and_eq_true, beq_iff_eq] at h
          obtain ⟨⟨hm, hziso⟩, hrec⟩ := h
          have hw2 : wellFormed i2 = true := by
            rw [← sameMsgInnerIso_wf i1 i2 hrec]; exact hw
          simp only [errorOf]
          rw [errorFields_join i1 m1 s1 0 hw, errorFields_join i2 m2 s2 0 hw2,
            msgPieces_congr i1 i2 hrec m1, hm]
      | nil => simp [sameMsgInnerIso] at h
      | nilptr => simp [sameMsgInnerIso] at h
      | plain b => simp [sameMsgInnerIso] at h
  | nil =>
      cases e2 with
      | nil => rfl
      | errx i m s => simp [sameMsgInnerIso] at h
      | nilptr => simp [sameMsgInnerIso] at h
      | plain b => simp [sameMsgInnerIso] at h
  | nilptr => simp [wellFormed] at hw
  | plain a =>
      cases e2 with
      | plain b => rfl
      | nil => simp [sameMsgInnerIso] at h
      | errx i m s => simp [sameMsgInnerIso] at h
      | nilptr => simp [sameMsgInnerIso] at h

/-- Claim C9 counterexample.  Two nodes agreeing on message and inner
fields but differing in the inner node's stack render differently: with a
nil inner stack the inner node is zero and rendering stops at `"a"`; with
a non-nil inner stack it is not zero and rendering emits `"a: "`.  The
stack field does influence message-only output. -/
theorem claim9_counterexample :
    sameMsgInner (GoErr.errx (GoErr.errx GoErr.nil "" none) "a" none)
        (GoErr.errx (GoErr.errx GoErr.nil "" (some [sampleFrame])) "a" none) = true
    ∧ errorOf (GoErr.errx (GoErr.errx GoErr.nil "" none) "a" none) = some "a"
    ∧ errorOf (GoErr.errx (GoErr.errx GoErr.nil "" (some [sampleFrame])) "a" none)
        = some "a: "
    ∧ (some "a" : Option String) ≠ some "a: " := by
  exact ⟨by decide, by decide, by decide, by decide⟩

/-- Concrete instance of claim C9's theorem. -/
theorem claim9_witness :
    errorOf (GoErr.errx (GoErr.errx GoErr.nil "x" none) "a" none)
      = errorOf (GoErr.errx (GoErr.errx GoErr.nil "x" (some [sampleFrame])) "a" none) :=
  claim9 (GoErr.errx (GoErr.errx GoErr.nil "x" none) "a" none)
    (GoErr.errx (GoErr.errx GoErr.nil "x" (some [sampleFrame])) "a" none)
    (by decide) (by decide)

/-- Claim C10.  `PrintMessages` and `PrintWithStack` both map a nil error
to the empty string and a non-nil non-`*Error` error to that error's own
`Error()` string, unchanged. -/
theorem claim10 : ∀ s : String,
    PrintMessages GoErr.nil = some ""
    ∧ PrintWithStack GoErr.nil = some ""
    ∧ PrintMessages (GoErr.plain s) = some s
    ∧ PrintWithStack (GoErr.plain s) = some s :=
  fun _ => ⟨rfl, rfl, rfl, rfl⟩

/-! ### Totality of the renderer (claim C8) -/

theorem goRepeat_length (s : String) : ∀ n, (goRepeat s n).length = n * s.length := by
  intro n
  induction n with
  | zero => simp [goRepeat]
  | succ k ih => simp [goRepeat, ih]; ring

theorem goSlice_sep_ok (d : Nat) :
    (goSliceFrom (goRepeat ": " (d + 1)) (d * 2)).isSome = true := by
  have hl : (goRepeat ": " (d + 1)).length = (d + 1) * 2 := by
    have h2 : (": ").length = 2 := by decide
    rw [goRepeat_length, h2]
  unfold goSliceFrom
  rw [if_pos]
  · rfl
  · rw [hl]; omega

theorem errorFields_total_true (inner : GoErr) :
    ∀ (m : String) (s : Option StackTrace) (d : Nat), wellFormed inner = true →
    (errorFields inner m s d ": " true).isSome = true := by
  induction inner with
  | nil =>
      intro m s d _
      cases s with
      | none => simp [errorFields]
      | some st =>
          rcases Nat.eq_zero_or_pos d with hd | hd
          · subst hd; simp [errorFields]
          · obtain ⟨old, hold⟩ := Option.isSome_iff_exists.mp (goSlice_sep_ok d)
            simp [errorFields, hold, hd]
  | nilptr =>
      intro m s d h
      simp [wellFormed] at h
  | plain str =>
      intro m s d _
      cases s with
      | none => simp [errorFields]
      | some st =>
          rcases Nat.eq_zero_or_pos d with hd | hd
          · subst hd; simp [errorFields]
          · obtain ⟨old, hold⟩ := Option.isSome_iff_exists.mp (goSlice_sep_ok d)
            simp [errorFields, hold, hd]
  | errx i2 m2 s2 ih =>
      intro m s d h
      by_cases hz : (GoErr.errx i2 m2 s2).isZero
      · cases s with
        | none => simp [errorFields, hz]
        | some st =>
            rcases Nat.eq_zero_or_pos d with hd | hd
            · subst hd; simp [errorFields, hz]
            · obtain ⟨old, hold⟩ := Option.isSome_iff_exists.mp (goSlice_sep_ok d)
              simp [errorFields, hz, hold, hd]
      · obtain ⟨r, hr⟩ := Option.isSome_iff_exists.mp (ih m2 s2 (d + 1) h)
        cases s with
        | none => simp [errorFields, hz, hr]
        | some st =>
            rcases Nat.eq_zero_or_pos d with hd | hd
            · subst hd; simp [errorFields, hz, hr]
            · obtain ⟨old, hold⟩ := Option.isSome_iff_exists.mp (goSlice_sep_ok d)
              simp [errorFields, hz, hr, hold, hd]

theorem errorFields_total (inner : GoErr) (m : String) (s : Option StackTrace)
    (d : Nat) (ps : Bool) (h : wellFormed inner = true) :
    (errorFields inner m s d ": " ps).isSome = true := by
  cases ps
  · rw [errorFields_join inner m s d h]; rfl
  · exact errorFields_total_true inner m s d h

/-- Claim C3, settled by evaluation at the failing input (a `New("x")`
node whose capture resolved one frame).  The final variant's `Error()`
(part_000) is message-only and the stack appears only under the explicit
`%v` / `%s` rendering request, as the claim states; but the historical
src/error.go variant cited by the claim has `Error()` call `e.error(0)`,
which appends a newline and the stack trace unconditionally — violating
the claim and the repository's own Test_New, which expects
`New("My error!").Error() == "My error!"`. -/
theorem claim3 :
    errorOf (GoErr.errx GoErr.nil "x" (some [sampleFrame])) = some "x"
    ∧ formatVerbose (GoErr.errx GoErr.nil "x" (some [sampleFrame]))
        = some ("x" ++ "
" ++ "  at main.main(examples/main.go:13)
")
    ∧ errorGoOf (GoErr.errx GoErr.nil "x" (some [sampleFrame]))
        = some ("x" ++ "
" ++ "  at main.main(examples/main.go:13)
") := by
  exact ⟨by decide, by decide, by decide⟩

/-- Claim C8 (amended).  For every cause free of typed-nil `*Error`
values, `Wrap` returns a node (in particular a nil cause yields
`inner = nil` plus the freshly captured trace), `New` always returns its
node, and both rendering modes of `(*Error).error` return a string — no
panic — for any message, any stack field (absent, empty or arbitrary) and
any depth.  The typed-nil cause has to be excluded: see the
counterexample. -/
theorem claim8 : ∀ (e : GoErr) (m : String) (frames : List StackFrame)
    (i : GoErr) (ms : String) (st : Option StackTrace) (d : Nat) (ps : Bool),
    wellFormed e = true → wellFormed i = true →
    (wrapErr (getStack frames) e m).isSome = true
    ∧ wrapErr (getStack frames) GoErr.nil m
        = some (GoErr.errx GoErr.nil m (getStack frames))
    ∧ newErr (getStack frames) m = GoErr.errx GoErr.nil m (getStack frames)
    ∧ (errorFields i ms st d ": " ps).isSome = true := by
  intro e m frames i ms st d ps he hi
  refine ⟨?_, rfl, rfl, errorFields_total i ms st d ps hi⟩
  cases e with
  | nil => rfl
  | errx a b c => rfl
  | plain p => rfl
  | nilptr => simp [wellFormed] at he

/-- Claim C8 counterexample.  A non-nil error interface holding a nil
`*errx.Error` pointer passes `err.(*Error)` inside `wrapErr`, and
`copied := *inner` then dereferences a nil pointer — a panic (modelled by
`none`); likewise rendering a node whose `Inner` holds such a value panics
inside `inner.isZero()`.  `Wrap` therefore does not run to completion for
every input. -/
theorem claim8_counterexample :
    wrapErr (getStack [sampleFrame]) GoErr.nilptr "m" = none
    ∧ errorOf (GoErr.errx GoErr.nilptr "a" none) = none := by
  exact ⟨by decide, by decide⟩

/-- Concrete instance of claim C8's theorem. -/
theorem claim8_witness :
    (wrapErr (getStack [sampleFrame]) (GoErr.plain "io") "m").isSome = true
    ∧ wrapErr (getStack [sampleFrame]) GoErr.nil "m"
        = some (GoErr.errx GoErr.nil "m" (getStack [sampleFrame]))
    ∧ newErr (getStack [sampleFrame]) "m"
        = GoErr.errx GoErr.nil "m" (getStack [sampleFrame])
    ∧ (errorFields GoErr.nil "x" (some [sampleFrame]) 0 ": " true).isSome = true :=
  claim8 (GoErr.plain "io") "m" [sampleFrame] GoErr.nil "x" (some [sampleFrame]) 0 true
    (by decide) (by decide)

/-! ### Lemmas for claim C4 (trimGOPATH) -/

theorem sepIdxs_length : ∀ l : List Char, (sepIdxs l).length = strCount l := by
  intro l
  induction l with
  | nil => rfl
  | cons c cs ih =>
      by_cases h : c = sepChar <;> simp [sepIdxs, strCount, h, ih] <;> omega

theorem sepIdxs_sorted : ∀ l : List Char, (sepIdxs l).Pairwise (· < ·) := by
  intro l
  induction l with
  | nil => exact List.Pairwise.nil
  | cons c cs ih =>
      have hmap : ((sepIdxs cs).map (· + 1)).Pairwise (· < ·) := by
        rw [List.pairwise_map]
        exact ih.imp (fun hab => by omega)
      by_cases h : c = sepChar
      · simp only [sepIdxs, h, if_pos, List.singleton_append]
        rw [List.pairwise_cons]
        refine ⟨?_, hmap⟩
        intro b hb
        simp [List.mem_map] at hb
        obtain ⟨x, _, hx⟩ := hb
        omega
      · simpa [sepIdxs, h] using hmap

theorem getLast?_cons_isSome : ∀ (x : Nat) (l : List Nat),
    ((x :: l).getLast?).isSome = true := by
  intro x l
  induction l generalizing x with
  | nil => rfl
  | cons y ys ih => rw [List.getLast?_cons_cons]; exact ih y

theorem getLast?_map_succ : ∀ l : List Nat,
    (l.map (· + 1)).getLast? = l.getLast?.map (· + 1) := by
  intro l
  induction l with
  | nil => rfl
  | cons x xs ih =>
      cases xs with
      | nil => rfl
      | cons y ys =>
          simp only [List.map_cons, List.getLast?_cons_cons]
          simpa [List.map_cons] using ih

theorem lastIdx_eq : ∀ l : List Char, lastIdx l = (sepIdxs l).getLast? := by
  intro l
  induction l with
  | nil => rfl
  | cons c cs ih =>
      cases hcs : sepIdxs cs with
      | nil =>
          by_cases h : c = sepChar <;> simp [lastIdx, sepIdxs, ih, hcs, h]
      | cons q qs =>
          obtain ⟨g, hg⟩ := Option.isSome_iff_exists.mp (getLast?_cons_isSome q qs)
          have hmap : ((q :: qs).map (· + 1)).getLast? = some (g + 1) := by
            rw [getLast?_map_succ, hg]; rfl
          have hmap2 : ((q + 1) :: qs.map (· + 1)).getLast? = some (g + 1) := hmap
          by_cases h : c = sepChar <;>
            simp [lastIdx, sepIdxs, ih, hcs, h, hg, List.map_cons,
              List.getLast?_append_cons, hmap2]

theorem filter_map_succ (p : Nat → Bool) : ∀ l : List Nat,
    (l.map (· + 1)).filter p = (l.filter (fun j => p (j + 1))).map (· + 1) := by
  intro l
  induction l with
  | nil => rfl
  | cons x xs ih =>
      simp only [List.map_cons, List.filter_cons]
      cases hp : p (x + 1) <;> simp [hp, ih]

theorem sepIdxs_take : ∀ (l : List Char) (i : Nat),
    sepIdxs (l.take i) = (sepIdxs l).filter (fun j => j < i) := by
  intro l
  induction l with
  | nil => intro i; simp [sepIdxs]
  | cons c cs ih =>
      intro i
      cases i with
      | zero =>
          simp only [List.take_zero, sepIdxs]
          symm
          rw [List.filter_eq_nil_iff]
          intro a _
          simp
      | succ j =>
          have hfm : ((sepIdxs cs).map (· + 1)).filter (fun x => decide (x < j + 1))
              = ((sepIdxs cs).filter (fun x => x < j)).map (· + 1) := by
            rw [filter_map_succ]
            congr 1
            apply List.filter_congr
            intro a _
            simp [Nat.add_lt_add_iff_right]
          by_cases h : c = sepChar <;>
            simp [sepIdxs, h, List.take_succ_cons, ih j, List.filter_append, hfm]

theorem getD_mem_of_lt : ∀ (l : List Nat) (k : Nat), k < l.length → l.getD k 0 ∈ l := by
  intro l
  induction l with
  | nil => intro k h; simp at h
  | cons a l ih =>
      intro k h
      cases k with
      | zero => simp
      | succ k' =>
          simp only [List.getD_cons_succ]
          exact List.mem_cons_of_mem a (ih k' (by simpa using h))

theorem sorted_filter_lt_getD : ∀ Q : List Nat, Q.Pairwise (· < ·) →
    ∀ k, k < Q.length → Q.filter (fun x => x < Q.getD k 0) = Q.take k := by
  intro Q
  induction Q with
  | nil => intro _ k h; simp at h
  | cons a Q2 ih =>
      intro hp k hk
      have hall : ∀ x ∈ Q2, a < x := (List.pairwise_cons.mp hp).1
      have hp2 := (List.pairwise_cons.mp hp).2
      cases k with
      | zero =>
          simp only [List.getD_cons_zero, List.take_zero, List.filter_cons]
          have h1 : ¬ a < a := lt_irrefl a
          have h2 : Q2.filter (fun x => decide (x < a)) = [] := by
            rw [List.filter_eq_nil_iff]
            intro x hx
            have := hall x hx
            simp
            omega
          simp [h1, h2]
      | succ k2 =>
          simp only [List.getD_cons_succ, List.take_succ_cons, List.filter_cons]
          have hmem := getD_mem_of_lt Q2 k2 (by simpa using hk)
          have ha : a < Q2.getD k2 0 := hall _ hmem
          rw [ih hp2 k2 (by simpa using hk)]
          split
          · rfl
          next hfalse => exact absurd (by simpa using ha) hfalse

theorem take_getLast?_eq : ∀ (Q : List Nat) (k : Nat), 1 ≤ k → k ≤ Q.length →
    (Q.take k).getLast? = some (Q.getD (k - 1) 0) := by
  intro Q
  induction Q with
  | nil => intro k h1 h2; simp at h2; omega
  | cons a Q2 ih =>
      intro k h1 h2
      cases k with
      | zero => omega
      | succ k1 =>
          cases k1 with
          | zero => simp
          | succ k0 =>
              have hlen : k0 + 1 ≤ Q2.length := by simpa using h2
              have hne : Q2.take (k0 + 1) ≠ [] := by
                intro hq
                rcases List.take_eq_nil_iff.mp hq with h | h
                · omega
                · rw [h] at hlen; simp at hlen
              obtain ⟨x, xs, hxx⟩ : ∃ x xs, Q2.take (k0 + 1) = x :: xs := by
                cases hq : Q2.take (k0 + 1) with
                | nil => exact absurd hq hne
                | cons x xs => exact ⟨x, xs, rfl⟩
              rw [List.take_succ_cons, hxx, List.getLast?_cons_cons, ← hxx,
                ih (k0 + 1) (by omega) hlen]
              simp

theorem trimLoop_out (file : List Char) :
    ∀ (n k i : Nat), sepIdxs (file.take i) = (sepIdxs file).take k →
    k ≤ (sepIdxs file).length → k < n → trimLoop file i n = none := by
  intro n
  induction n with
  | zero => intro k i _ _ h; omega
  | succ n1 ih =>
      intro k i hinv hk hkn
      simp only [trimLoop]
      rw [lastIdx_eq, hinv]
      cases k with
      | zero => simp
      | succ k1 =>
          rw [take_getLast?_eq _ (k1 + 1) (by omega) hk]
          have hinv2 : sepIdxs (file.take ((sepIdxs file).getD k1 0))
              = (sepIdxs file).take k1 := by
            rw [sepIdxs_take]
            exact sorted_filter_lt_getD _ (sepIdxs_sorted file) k1 (by omega)
          exact ih k1 ((sepIdxs file).getD k1 0) hinv2 (by omega) (by omega)

theorem trimLoop_in (file : List Char) :
    ∀ (n k i : Nat), sepIdxs (file.take i) = (sepIdxs file).take k →
    k ≤ (sepIdxs file).length → 1 ≤ n → n ≤ k →
    trimLoop file i n = some ((sepIdxs file).getD (k - n) 0) := by
  intro n
  induction n with
  | zero => intro k i _ _ h _; omega
  | succ n1 ih =>
      intro k i hinv hk _ hnk
      cases k with
      | zero => omega
      | succ k1 =>
          simp only [trimLoop]
          rw [lastIdx_eq, hinv, take_getLast?_eq _ (k1 + 1) (by omega) hk]
          rcases Nat.eq_zero_or_pos n1 with hn1 | hn1
          · subst hn1
            rfl
          · have hinv2 : sepIdxs (file.take ((sepIdxs file).getD k1 0))
                = (sepIdxs file).take k1 := by
              rw [sepIdxs_take]
              exact sorted_filter_lt_getD _ (sepIdxs_sorted file) k1 (by omega)
            have hrec := ih k1 ((sepIdxs file).getD k1 0) hinv2 (by omega) (by omega) (by omega)
            have hidx : k1 + 1 - (n1 + 1) = k1 - n1 := by omega
            rw [hidx]
            exact hrec

/-- Claim C4.  With s the number of path separators in the qualified
function name: when the absolute file path contains at least s + 2
separators, `trimGOPATH` returns the suffix of the path strictly after
the (s + 2)-th separator counted from the end (the separator at ascending
index `count - (s + 2)`); when the path contains fewer separators it is
returned unmodified. -/
theorem claim4 : ∀ name file : List Char,
    (strCount name + 2 ≤ strCount file →
      trimGOPATH name file
        = file.drop ((sepIdxs file).getD (strCount file - (strCount name + 2)) 0 + 1))
    ∧ (strCount file < strCount name + 2 → trimGOPATH name file = file) := by
  intro name file
  have hlen := sepIdxs_length file
  have hinv : sepIdxs (file.take file.length)
      = (sepIdxs file).take (sepIdxs file).length := by
    rw [List.take_length, List.take_length]
  constructor
  · intro h
    have hloop := trimLoop_in file (strCount name + 2) (sepIdxs file).length file.length
      hinv le_rfl (by omega) (by omega)
    simp only [trimGOPATH, hloop]
    rw [hlen]
  · intro h
    have hloop := trimLoop_out file (strCount name + 2) (sepIdxs file).length file.length
      hinv le_rfl (by omega)
    simp only [trimGOPATH, hloop]
    simp

/-- Concrete instance of claim C4's theorem, at the example from the
source comment: GOPATH `/home/user`, file `/home/user/src/pkg/sub/file.go`,
function `pkg/sub.Type.Method` — the trimmed path is `pkg/sub/file.go`. -/
theorem claim4_witness :
    trimGOPATH ("pkg/sub.Type.Method").data ("/home/user/src/pkg/sub/file.go").data
      = ("/home/user/src/pkg/sub/file.go").data.drop
          ((sepIdxs ("/home/user/src/pkg/sub/file.go").data).getD
            (strCount ("/home/user/src/pkg/sub/file.go").data
              - (strCount ("pkg/sub.Type.Method").data + 2)) 0 + 1)
    ∧ ("/home/user/src/pkg/sub/file.go").data.drop
          ((sepIdxs ("/home/user/src/pkg/sub/file.go").data).getD
            (strCount ("/home/user/src/pkg/sub/file.go").data
              - (strCount ("pkg/sub.Type.Method").data + 2)) 0 + 1)
        = ("pkg/sub/file.go").data :=
  ⟨(claim4 ("pkg/sub.Type.Method").data ("/home/user/src/pkg/sub/file.go").data).1
    (by decide), by decide⟩

/-! ### Lemmas for claim C5 (the heap-level frame property) -/

theorem renderMsgH_frame (i : Nat) :
    ∀ (fuel : Nat) (g g2 : Heap) (a : Nat),
    (∀ j, j ≠ i → g2[j]? = g[j]?) → ¬ Derefs g a i →
    renderMsgH g2 fuel a = renderMsgH g fuel a := by
  intro fuel
  induction fuel with
  | zero => intro g g2 a _ _; rfl
  | succ f ih =>
      intro g g2 a hagree hnd
      have hai : a ≠ i := fun he => hnd (he ▸ Derefs.refl a)
      cases hga : g[a]? with
      | none => simp only [renderMsgH, hagree a hai, hga]
      | some o =>
          cases hoi : o.inner with
          | none => simp only [renderMsgH, hagree a hai, hga, hoi]
          | some v =>
              cases v with
              | plain s => simp only [renderMsgH, hagree a hai, hga, hoi]
              | ptr k =>
                  have hki : k ≠ i := fun he =>
                    hnd (Derefs.step a i i o hga (he ▸ hoi) (Derefs.refl i))
                  cases hgk : g[k]? with
                  | none =>
                      simp only [renderMsgH, hagree a hai, hga, hoi, hagree k hki, hgk]
                  | some ok =>
                      by_cases hz : isZeroH ok
                      · simp only [renderMsgH, hagree a hai, hga, hoi, hagree k hki,
                          hgk, hz, if_true]
                      · have hnd2 : ¬ Derefs g k i := fun hd =>
                          hnd (Derefs.step a k i o hga hoi hd)
                        simp [renderMsgH, hagree a hai, hga, hoi, hagree k hki, hgk, hz,
                          ih g g2 k hagree hnd2]

theorem mem_of_lookup {h : Heap} {a : Nat} {o : HObj} (hx : h[a]? = some o) : o ∈ h := by
  have ha : a < h.length := by
    by_contra hge
    push_neg at hge
    rw [List.getElem?_eq_none hge] at hx
    exact Option.noConfusion hx
  have : h[a] = o := by
    have := List.getElem?_eq_getElem ha
    rw [this] at hx
    exact Option.some.inj hx
  exact this ▸ List.getElem_mem ha

theorem derefs_extend (h : Heap) (extra : List HObj) (hwf : heapWFb h = true) :
    ∀ a b, Derefs (h ++ extra) a b → a < h.length → Derefs h a b := by
  intro a b hd
  induction hd with
  | refl c => intro _; exact Derefs.refl c
  | step a k b o hga hoi hkb ih =>
      intro ha
      have hga2 : h[a]? = some o := by
        rw [← hga, List.getElem?_append, if_pos ha]
      have hk : k < h.length := by
        have hmem := mem_of_lookup hga2
        have hall := (List.all_eq_true.mp hwf) o hmem
        simp only [objPtrLt, hoi] at hall
        simpa using hall
      exact Derefs.step a k b o hga2 hoi (ih hk)

/-- Claim C5.  Wrapping the ErrorNode at address `i` allocates a shallow
value copy of it (the copy's own `inner` and `stack` references are
shared, not deep-cloned) and points the wrapper at that copy; therefore
overwriting the fields of the original cause object afterwards —
`newO` arbitrary — leaves the wrapper's rendered output unchanged.  The
heap must be free of dangling pointers and the cause must not sit on its
own inner chain (true of every chain the constructors build, since wrap
only ever attaches to pre-existing values). -/
theorem claim5 : ∀ (h : Heap) (i : Nat) (o newO : HObj) (m : String)
    (cap : Option StackTrace) (fuel : Nat) (h2 : Heap) (a : Nat),
    heapWFb h = true →
    h[i]? = some o →
    (∀ k, o.inner = some (HVal.ptr k) → ¬ Derefs h k i) →
    wrapErrH h (some (HVal.ptr i)) m cap = some (h2, a) →
    renderMsgH (h2.set i newO) fuel a = renderMsgH h2 fuel a := by
  intro h i o newO m cap fuel h2 a hwf hio hnc hw
  have hi_lt : i < h.length := by
    by_contra hge
    push_neg at hge
    rw [List.getElem?_eq_none hge] at hio
    exact Option.noConfusion hio
  simp only [wrapErrH, hio] at hw
  have hpair := Option.some.inj hw
  injection hpair with hh2 ha
  subst hh2
  subst ha
  apply renderMsgH_frame i fuel
  · intro j hj
    exact List.getElem?_set_ne (Ne.symm hj)
  · intro hd
    have hw0 : (h ++ [⟨some (HVal.ptr (h.length + 1)), m, none⟩, o])[h.length]?
        = some ⟨some (HVal.ptr (h.length + 1)), m, none⟩ := by
      rw [List.getElem?_append_right (le_refl h.length)]
      simp
    have hw1 : (h ++ [⟨some (HVal.ptr (h.length + 1)), m, none⟩, o])[h.length + 1]?
        = some o := by
      rw [List.getElem?_append_right (by omega)]
      have hone : h.length + 1 - h.length = 1 := by omega
      rw [hone]
      rfl
    cases hd with
    | refl => exact absurd hi_lt (lt_irrefl _)
    | step a k b o1 hga hoi hkb =>
        rw [hw0] at hga
        obtain rfl : o1 = ⟨some (HVal.ptr (h.length + 1)), m, none⟩ :=
          (Option.some.inj hga).symm
        simp only [HObj.mk.injEq] at hoi
        obtain rfl : k = h.length + 1 := by
          have := Option.some.inj hoi
          cases this
          rfl
        cases hkb with
        | refl => omega
        | step a2 k2 b2 o2 hga2 hoi2 hkb2 =>
            rw [hw1] at hga2
            have ho2 : o2 = o := (Option.some.inj hga2).symm
            rw [ho2] at hoi2
            have hk2 : k2 < h.length := by
              have hmem := mem_of_lookup hio
              have hall := (List.all_eq_true.mp hwf) o hmem
              simp only [objPtrLt, hoi2] at hall
              simpa using hall
            exact hnc k2 hoi2 (derefs_extend h _ hwf k2 i hkb2 hk2)

/-- Concrete instance of claim C5's theorem: the cause is a `New("inner")`
object at address 0; wrapping allocates the wrapper (address 1) and the
copy (address 2), and overwriting the original's fields afterwards leaves
the wrapper's rendering unchanged. -/
theorem claim5_witness :
    renderMsgH (([⟨none, "inner", some [sampleFrame]⟩,
        ⟨some (HVal.ptr 2), "outer", none⟩,
        ⟨none, "inner", some [sampleFrame]⟩] : Heap).set 0 ⟨none, "mutated", none⟩) 3 1
      = renderMsgH ([⟨none, "inner", some [sampleFrame]⟩,
        ⟨some (HVal.ptr 2), "outer", none⟩,
        ⟨none, "inner", some [sampleFrame]⟩] : Heap) 3 1 :=
  claim5 [⟨none, "inner", some [sampleFrame]⟩] 0 ⟨none, "inner", some [sampleFrame]⟩
    ⟨none, "mutated", none⟩ "outer" none 3
    [⟨none, "inner", some [sampleFrame]⟩,
      ⟨some (HVal.ptr 2), "outer", none⟩,
      ⟨none, "inner", some [sampleFrame]⟩] 1
    (by decide) (by decide) (fun k hk => nomatch hk) (by decide)

end Errx

